import Mathlib

/-!
Verification of the two core mechanisms of the `gitinfo` repository
(`gitdata.py` and `gitinfo.py`): link-header pagination parsing and
dotted-path field projection of JSON records.

Python strings are modelled as `List Char` (`PyStr`); Python's `str.split`,
`str.strip`, slicing `s[1:-1]`, `str.lower` and `str.replace` are given
faithful executable translations.  Python `dict` / `collections.OrderedDict`
values are modelled as association lists with insertion-order semantics
(`odInsert` keeps the position of an existing key and appends a new one).
Python exceptions are modelled with `Except PyExc`.
-/

/-- Python strings, as lists of characters. -/
abbrev PyStr := List Char

/-- Python `s.split(sep)` for a single-character separator: every occurrence
of the separator splits, and the result is never empty (`''.split(',') = ['']`). -/
def pySplit (sep : Char) : PyStr → List PyStr
  | [] => [[]]
  | c :: cs =>
    match pySplit sep cs with
    | [] => [[]]
    | p :: ps => if c = sep then [] :: p :: ps else (c :: p) :: ps

/-- Python `s.strip()`: remove leading and trailing whitespace.
(Python's whitespace set also has `\v`/`\f`; none of the inputs here use them.) -/
def pyStrip (s : PyStr) : PyStr :=
  ((s.dropWhile Char.isWhitespace).reverse.dropWhile Char.isWhitespace).reverse

/-- Python slice `s[1:-1]`: drop the first and the last character. -/
def slice1m1 (s : PyStr) : PyStr := (s.drop 1).dropLast

/-- Python `s.lower()` (ASCII case, all inputs here are ASCII). -/
def pyLower (s : PyStr) : PyStr := s.map Char.toLower

/-- Python `s.replace('.', '_')`. -/
def dotToUnderscore (s : PyStr) : PyStr :=
  s.map (fun c => if c = '.' then '_' else c)

/-- `l[-1]` on the (never-empty) result of a Python `split`. -/
def lastD (l : List PyStr) : PyStr := l.getLastD []

/-- `l[0]` on the (never-empty) result of a Python `split`. -/
def headD (l : List PyStr) : PyStr := l.headD []

/-- Decoded JSON values (as produced by Python's `json` module). -/
inductive Jval where
  | null
  | bool (b : Bool)
  | num (n : Int)
  | str (s : PyStr)
  | arr (elems : List Jval)
  | obj (fields : List (PyStr × Jval))

/-- Python exceptions that the modelled code can raise. -/
inductive PyExc where
  | typeError
  | keyError
  | valueError
  | attributeError
deriving DecidableEq

/-- Lookup in a Python dict modelled as an association list. -/
def odLookup (k : PyStr) : List (PyStr × α) → Option α
  | [] => none
  | (k', v) :: rest => if k' = k then some v else odLookup k rest

/-- `d[k] = v` on a Python dict / `OrderedDict`: an existing key keeps its
position and gets the new value; a new key is appended at the end. -/
def odInsert (d : List (PyStr × α)) (k : PyStr) (v : α) : List (PyStr × α) :=
  match d with
  | [] => [(k, v)]
  | (k', v') :: rest => if k' = k then (k', v) :: rest else (k', v') :: odInsert rest k v

/-- Python `d[k]` where `d` is a decoded JSON value: indexing a JSON object by a
string either yields the value (`ok`) or raises `KeyError`; indexing any
non-object (`None`, bool, number, string, list) by a string raises `TypeError`. -/
def getItem : Jval → PyStr → Except PyExc Jval
  | .obj fs, k =>
    match odLookup k fs with
    | some v => .ok v
    | none => .error .keyError
  | _, _ => .error .typeError

/-- Values held by the dictionary returned by `pagination`. -/
inductive PagVal where
  | int (n : Int)
  | pynone
  | str (s : PyStr)
deriving DecidableEq

/-- The dictionary built by `pagination`, in insertion order. -/
abbrev PagDict := List (PyStr × PagVal)

/-- The initial dictionary of `pagination`:
`{'firstpage':0, 'firstURL':None, 'prevpage':0, 'prevURL':None,
  'nextpage':0, 'nextURL':None, 'lastpage':0, 'lastURL':None}`. -/
def pagInit : PagDict :=
  [("firstpage".toList, .int 0), ("firstURL".toList, .pynone),
   ("prevpage".toList, .int 0), ("prevURL".toList, .pynone),
   ("nextpage".toList, .int 0), ("nextURL".toList, .pynone),
   ("lastpage".toList, .int 0), ("lastURL".toList, .pynone)]

/-- The body of `pagination`'s `for link in links` loop (`gitdata.py` 504-510,
identical in `gitinfo.py` 203-209):
`linktype = link.split(';')[-1].split('=')[-1].strip()[1:-1]`,
`url = link.split(';')[0].strip()[1:-1]`,
`pageno = url.split('?')[-1].split('=')[-1].strip()`,
then `retval[linktype+'page'] = pageno; retval[linktype+'URL'] = url`. -/
def pagEntry (d : PagDict) (link : PyStr) : PagDict :=
  let linktype := slice1m1 (pyStrip (lastD (pySplit '=' (lastD (pySplit ';' link)))))
  let url := slice1m1 (pyStrip (headD (pySplit ';' link)))
  let pageno := pyStrip (lastD (pySplit '=' (lastD (pySplit '?' url))))
  odInsert (odInsert d (linktype ++ "page".toList) (.str pageno))
    (linktype ++ "URL".toList) (.str url)

/-- `pagination` applied to a link header string:
`links = link_string.split(',')` followed by the per-link loop. -/
def paginationStr (linkString : PyStr) : PagDict :=
  (pySplit ',' linkString).foldl pagEntry pagInit

/-- The possible first arguments of `pagination`: an `str`, a `requests`
response object (modelled by whether its headers contain a `Link` entry),
or Python `None`. -/
inductive LinkInput where
  | str (s : PyStr)
  | response (linkHeader : Option PyStr)
  | pynone

/-- `pagination(link_header)` (`gitdata.py` 478-513, identical logic in
`gitinfo.py` 179-213).  A string argument is parsed directly; a response
object has its `Link` header looked up, `except KeyError` returning the
initial dictionary; Python `None` is not a string and has no `.headers`
attribute, so `link_header.headers` raises `AttributeError`, which the
`except KeyError` clause does not catch. -/
def pagination : LinkInput → Except PyExc PagDict
  | .str s => .ok (paginationStr s)
  | .response (some s) => .ok (paginationStr s)
  | .response none => .ok pagInit
  | .pynone => .error .attributeError

/-- A projected record: an ordered mapping from field name to value
(Python `collections.OrderedDict` / `namedtuple` contents, in key order). -/
abbrev Rec := List (PyStr × Jval)

/-- Python `fldname.endswith('url')`. -/
def endsUrl (s : PyStr) : Bool := "url".toList.isSuffixOf s

/-- Python `str(x.__class__) == "<class 'dict'>"`. -/
def jIsDict : Jval → Bool
  | .obj _ => true
  | _ => false

/-- The dict comprehension
`{key:value for (key, value) in this_item.items() if not key.endswith('url')}`
(`gitdata.py` 617-619); on a non-dict it is the identity (never reached there). -/
def nourlsFilter : Jval → Jval
  | .obj fs => .obj (fs.filter (fun kv => ¬ endsUrl kv.1))
  | v => v

/-- Python truthiness `bool(x)` of a decoded JSON value, as used by
`'private' if repo_json[fldname] else 'public'`. -/
def jTruthy : Jval → Bool
  | .null => false
  | .bool b => b
  | .num n => n ≠ 0
  | .str s => s ≠ []
  | .arr xs => !xs.isEmpty
  | .obj fs => !fs.isEmpty

/-- The sentinel branch of `gitdata.repofields` (`gitdata.py` 604-620):
`for fldname in repo_json`, keep the field when `fields[0]` is `'*'`, or
`'urls'` and the name ends in `url`, or `'nourls'` and it does not; a kept
dict value is stripped of its own `*url` keys in the `'nourls'` case.
The source dict `repo_json` is iterated in insertion order. -/
def sentinelValues (repo_json : Rec) (f0 : PyStr) : Rec :=
  repo_json.foldl
    (fun values kv =>
      if f0 = "*".toList ∨ (f0 = "urls".toList ∧ endsUrl kv.1) ∨
          (f0 = "nourls".toList ∧ ¬ endsUrl kv.1) then
        if jIsDict kv.2 ∧ f0 = "nourls".toList then
          odInsert values kv.1 (nourlsFilter kv.2)
        else
          odInsert values kv.1 kv.2
      else values)
    []

/-- One iteration of the explicit-field-list loop of `gitdata.repofields`
(`gitdata.py` 624-641).  The accumulator carries the `values` ordered dict and
the process-wide `_settings.unknownfieldname` marker.  A dotted name stores
`repo_json[parent][child]`, with `except (TypeError, KeyError)` storing `None`;
a simple name stores `repo_json[fldname]` (with the case-insensitive `private`
boolean special case), with `except KeyError` setting the marker and storing
nothing. -/
def explicitStep (repo_json : Rec) (acc : Rec × Option PyStr) (fldname : PyStr) :
    Rec × Option PyStr :=
  if '.' ∈ fldname then
    match odLookup (headD (pySplit '.' fldname)) repo_json with
    | none => (odInsert acc.1 (dotToUnderscore fldname) .null, acc.2)
    | some pv =>
      match getItem pv ((pySplit '.' fldname).getD 1 []) with
      | .ok v => (odInsert acc.1 (dotToUnderscore fldname) v, acc.2)
      | .error _ => (odInsert acc.1 (dotToUnderscore fldname) .null, acc.2)
  else
    match odLookup fldname repo_json with
    | none => (acc.1, some fldname)
    | some v =>
      if pyLower fldname = "private".toList then
        (odInsert (odInsert acc.1 fldname v) fldname
          (.str (if jTruthy v then "private".toList else "public".toList)), acc.2)
      else (odInsert acc.1 fldname v, acc.2)

/-- `repofields(repo_json, fields)` of `gitdata.py` (586-642).  `repo_json` is
the repo's decoded JSON object (a string-keyed dict in insertion order);
the extra argument threads the process-wide `_settings.unknownfieldname`
marker through the call; the result pairs the returned ordered dict with the
marker's updated value.  An empty `fields` (Python `None` or `[]` is falsy)
selects the default list `['owner.login', 'name']`. -/
def repofields (repo_json : Rec) (fields : List PyStr) (unknownfieldname : Option PyStr) :
    Rec × Option PyStr :=
  let flds := if fields = [] then ["owner.login".toList, "name".toList] else fields
  if flds.headD [] = "*".toList ∨ flds.headD [] = "urls".toList ∨
      flds.headD [] = "nourls".toList then
    (sentinelValues repo_json (flds.headD []), unknownfieldname)
  else
    flds.foldl (explicitStep repo_json) ([], unknownfieldname)

/-- `memberfields(member_json, fields, org)` of `gitdata.py` (269-292).
An empty `fields` selects `['org', 'login', 'id', 'type', 'site_admin']`.
The loop stores the caller-supplied `org` for the field named `org` and
`member_json[fldname]` otherwise; a missing member field raises `KeyError`
(there is no `try` around the lookup). -/
def memberfields (member_json : Rec) (fields : List PyStr) (org : Jval) :
    Except PyExc Rec :=
  let flds := if fields = [] then
      ["org".toList, "login".toList, "id".toList, "type".toList, "site_admin".toList]
    else fields
  flds.foldlM
    (fun values fldname =>
      if fldname = "org".toList then .ok (odInsert values fldname org)
      else
        match odLookup fldname member_json with
        | some v => .ok (odInsert values fldname v)
        | none => .error .keyError)
    []

namespace gitinfo

/-- `memberfields(member_json, fields, org)` of `gitinfo.py` (79-97).
`values = {'org': org}` is filled first, then each requested field is read
(`KeyError` on a missing one propagates); then
`namedtuple('member_tuple', 'org ' + ' '.join(fields))` raises `ValueError`
when field names repeat (e.g. `'org'` listed in `fields`); the returned
tuple's entries follow the namedtuple's field order: `org` first, then
`fields` in order.  (Field names are assumed to be valid Python identifiers;
`namedtuple`'s rejection of non-identifier names is not modelled.) -/
def memberStep (member_json : Rec) (values : Rec) (f : PyStr) : Except PyExc Rec :=
  match odLookup f member_json with
  | some v => Except.ok (odInsert values f v)
  | none => Except.error PyExc.keyError

def memberfields (member_json : Rec) (fields : List PyStr) (org : Jval) :
    Except PyExc Rec := do
  let values ← fields.foldlM (memberStep member_json) (odInsert [] "org".toList org)
  if ("org".toList :: fields).Nodup then
    return ("org".toList :: fields).filterMap (fun k => (odLookup k values).map ((k, ·)))
  else
    Except.error PyExc.valueError

/-- `repofields(repo_json, fields)` of `gitinfo.py` (216-244).
`namedtuple('Repo', ' '.join(fldnames))` is created before the loop, so
duplicate output names raise `ValueError` first.  In the loop, a dotted name
evaluates `repo_json[parent][child]` with `except TypeError` storing `None`:
a missing `parent` or a missing `child` raises `KeyError`, which is NOT
caught here; a simple name evaluates `repo_json[fldname]` with no `try` at
all, so a missing simple field also raises `KeyError`.  There is no default
field list and no `private` special case in this version.  (Field names are
assumed to be valid Python identifiers.) -/
def repofields (repo_json : Rec) (fields : List PyStr) : Except PyExc Rec :=
  let fldnames := fields.map dotToUnderscore
  if fldnames.Nodup then do
    let values ← fields.foldlM
      (fun values fldname =>
        if '.' ∈ fldname then
          let parent := headD (pySplit '.' fldname)
          let child := (pySplit '.' fldname).getD 1 []
          match odLookup parent repo_json with
          | none => Except.error PyExc.keyError
          | some pv =>
            match pv with
            | .obj fs =>
              match odLookup child fs with
              | some v => Except.ok (odInsert values (dotToUnderscore fldname) v)
              | none => Except.error PyExc.keyError
            | _ => Except.ok (odInsert values (dotToUnderscore fldname) Jval.null)
        else
          match odLookup fldname repo_json with
          | some v => Except.ok (odInsert values fldname v)
          | none => Except.error PyExc.keyError)
      []
    return fldnames.filterMap (fun k => (odLookup k values).map ((k, ·)))
  else
    Except.error PyExc.valueError

end gitinfo

/-! ### Basic lemmas about the dict and string models -/

theorem odLookup_odInsert (d : List (PyStr × α)) (k k' : PyStr) (v : α) :
    odLookup k (odInsert d k' v) = if k' = k then some v else odLookup k d := by
  induction d with
  | nil =>
    by_cases h : k' = k <;> simp [odInsert, odLookup, h]
  | cons hd tl ih =>
    obtain ⟨k₀, v₀⟩ := hd
    simp only [odInsert]
    by_cases h0 : k₀ = k'
    · subst h0
      rw [if_pos rfl]
      simp only [odLookup]
      by_cases hk : k₀ = k
      · rw [if_pos hk, if_pos hk]
      · rw [if_neg hk, if_neg hk, if_neg hk]
    · rw [if_neg h0]
      simp only [odLookup, ih]
      by_cases hk : k₀ = k
      · subst hk
        have hk' : ¬ k' = k₀ := fun hh => h0 hh.symm
        rw [if_pos rfl, if_neg hk', if_pos rfl]
      · rw [if_neg hk]
        by_cases hk' : k' = k
        · rw [if_pos hk', if_pos hk']
        · rw [if_neg hk', if_neg hk', if_neg hk]

theorem keys_odInsert (d : List (PyStr × α)) (k : PyStr) (v : α) :
    (odInsert d k v).map Prod.fst =
      if k ∈ d.map Prod.fst then d.map Prod.fst else d.map Prod.fst ++ [k] := by
  induction d with
  | nil =>
    rw [if_neg (by simp)]
    rfl
  | cons hd tl ih =>
    obtain ⟨k₀, v₀⟩ := hd
    by_cases h0 : k₀ = k
    · subst h0
      have hins : odInsert ((k₀, v₀) :: tl) k₀ v = (k₀, v) :: tl := by
        show (if k₀ = k₀ then (k₀, v) :: tl else (k₀, v₀) :: odInsert tl k₀ v) = (k₀, v) :: tl
        rw [if_pos rfl]
      rw [hins]
      simp only [List.map_cons]
      rw [if_pos (List.mem_cons_self _ _)]
    · simp only [odInsert, if_neg h0, List.map_cons, ih]
      have hkk : ¬ k = k₀ := fun hh => h0 hh.symm
      by_cases hm : k ∈ tl.map Prod.fst
      · rw [if_pos hm, if_pos (by simp [hm])]
      · rw [if_neg hm, if_neg (by simp [hkk, hm]), List.cons_append]

theorem odInsert_not_mem (d : List (PyStr × α)) (k : PyStr) (v : α)
    (h : k ∉ d.map Prod.fst) : odInsert d k v = d ++ [(k, v)] := by
  induction d with
  | nil => rfl
  | cons hd tl ih =>
    obtain ⟨k₀, v₀⟩ := hd
    simp only [List.map_cons, List.mem_cons] at h
    push_neg at h
    have h1 : ¬ k₀ = k := fun hh => h.1 hh.symm
    simp only [odInsert, if_neg h1, ih h.2, List.cons_append]

theorem pySplit_ne_nil (c : Char) (s : PyStr) : pySplit c s ≠ [] := by
  cases s with
  | nil => simp [pySplit]
  | cons x xs =>
    simp only [pySplit]
    cases h : pySplit c xs with
    | nil => simp
    | cons p ps =>
      by_cases hx : x = c <;> simp [hx]

theorem pySplit_not_mem (c : Char) (s : PyStr) (h : c ∉ s) : pySplit c s = [s] := by
  induction s with
  | nil => rfl
  | cons x xs ih =>
    simp only [List.mem_cons] at h
    push_neg at h
    have hx : ¬ x = c := fun hh => h.1 hh.symm
    simp [pySplit, ih h.2, hx]

theorem pySplit_append (c : Char) (a b : PyStr) (h : c ∉ a) :
    pySplit c (a ++ c :: b) = a :: pySplit c b := by
  induction a with
  | nil =>
    simp only [List.nil_append, pySplit]
    cases hb : pySplit c b with
    | nil => exact absurd hb (pySplit_ne_nil c b)
    | cons p ps => simp
  | cons x xs ih =>
    simp only [List.mem_cons] at h
    push_neg at h
    have hx : ¬ x = c := fun hh => h.1 hh.symm
    simp only [List.cons_append, pySplit, List.append_eq]
    rw [ih h.2]
    simp [hx]

theorem dropWhile_ws_all (p s : PyStr) (hp : ∀ c ∈ p, c.isWhitespace) :
    List.dropWhile Char.isWhitespace (p ++ s) = List.dropWhile Char.isWhitespace s := by
  induction p with
  | nil => rfl
  | cons x xs ih =>
    simp only [List.mem_cons] at hp
    simp only [List.cons_append, List.dropWhile_cons]
    rw [if_pos (hp x (Or.inl rfl)), ih (fun c hc => hp c (Or.inr hc))]

theorem pyStrip_wsPre (p : PyStr) (hp : ∀ c ∈ p, c.isWhitespace)
    (a b : Char) (m : PyStr) (ha : ¬ a.isWhitespace) (hb : ¬ b.isWhitespace) :
    pyStrip (p ++ (a :: (m ++ [b]))) = a :: (m ++ [b]) := by
  unfold pyStrip
  rw [dropWhile_ws_all p _ hp, List.dropWhile_cons, if_neg ha]
  have h2 : (a :: (m ++ [b])).reverse = b :: (m.reverse ++ [a]) := by simp
  rw [h2, List.dropWhile_cons, if_neg hb, ← h2, List.reverse_reverse]

theorem dotToUnderscore_no_dot (s : PyStr) (h : '.' ∉ s) : dotToUnderscore s = s := by
  unfold dotToUnderscore
  conv_rhs => rw [← List.map_id s]
  apply List.map_congr_left
  intro c hc
  have hc' : ¬ c = '.' := fun he => h (he ▸ hc)
  simp [hc']

/-! ### Well-formed Link headers

A well-formed GitHub `Link` header is a `', '`-separated list of entries
`<url>; rel="type"`.  `LinkEntry` is the structured form of one entry;
`renderHeader` produces the exact header text, and `wfEntry` states the
delimiter side conditions under which the text is unambiguous. -/

structure LinkEntry where
  url : PyStr
  rel : PyStr
deriving DecidableEq

/-- The `'; rel="..."'` tail of a rendered entry. -/
def relPart (rel : PyStr) : PyStr :=
  ' ' :: 'r' :: 'e' :: 'l' :: '=' :: '"' :: (rel ++ ['"'])

/-- The text `<url>; rel="type"` of one Link-header entry. -/
def renderEntry (e : LinkEntry) : PyStr :=
  ('<' :: (e.url ++ ['>'])) ++ ';' :: relPart e.rel

/-- The text of a whole Link header: entries joined by `', '`. -/
def renderHeader : List LinkEntry → PyStr
  | [] => []
  | [e] => renderEntry e
  | e :: e2 :: es => renderEntry e ++ ',' :: ' ' :: renderHeader (e2 :: es)

/-- Delimiter side conditions making a rendered entry parse unambiguously:
no `,` or `;` inside the URL, and no `,`, `;` or `=` inside the rel type. -/
abbrev wfEntry (e : LinkEntry) : Prop :=
  ',' ∉ e.url ∧ ';' ∉ e.url ∧ ',' ∉ e.rel ∧ ';' ∉ e.rel ∧ '=' ∉ e.rel

/-- The page number the parser extracts from a URL:
`url.split('?')[-1].split('=')[-1].strip()`. -/
def pagenoOf (url : PyStr) : PyStr :=
  pyStrip (lastD (pySplit '=' (lastD (pySplit '?' url))))

/-- The net effect of one well-formed entry on the dictionary. -/
def pagStep (d : PagDict) (e : LinkEntry) : PagDict :=
  odInsert (odInsert d (e.rel ++ "page".toList) (.str (pagenoOf e.url)))
    (e.rel ++ "URL".toList) (.str e.url)

theorem not_mem_relPart (c : Char) (rel : PyStr) (h1 : c ∉ rel) (h2 : c ≠ ' ')
    (h3 : c ≠ 'r') (h4 : c ≠ 'e') (h5 : c ≠ 'l') (h6 : c ≠ '=') (h7 : c ≠ '"') :
    c ∉ relPart rel := by
  intro hmem
  simp only [relPart, List.mem_cons, List.mem_append, List.mem_singleton] at hmem
  rcases hmem with h|h|h|h|h|h|h|h
  · exact h2 h
  · exact h3 h
  · exact h4 h
  · exact h5 h
  · exact h6 h
  · exact h7 h
  · exact h1 h
  · rcases h with h|h
    · exact h7 h
    · exact absurd h (List.not_mem_nil c)

theorem not_mem_renderEntry (c : Char) (e : LinkEntry) (hu : c ∉ e.url)
    (hr : c ∉ e.rel) (h2 : c ≠ ' ') (h3 : c ≠ 'r') (h4 : c ≠ 'e') (h5 : c ≠ 'l')
    (h6 : c ≠ '=') (h7 : c ≠ '"') (h8 : c ≠ '<') (h9 : c ≠ '>') (h10 : c ≠ ';') :
    c ∉ renderEntry e := by
  intro hmem
  simp only [renderEntry, List.mem_cons, List.mem_append, List.mem_singleton] at hmem
  rcases hmem with (h|h|h)|h|h
  · exact h8 h
  · exact hu h
  · rcases h with h|h
    · exact h9 h
    · exact absurd h (List.not_mem_nil c)
  · exact h10 h
  · exact not_mem_relPart c e.rel hr h2 h3 h4 h5 h6 h7 h

theorem comma_not_mem_renderEntry (e : LinkEntry) (hwf : wfEntry e) :
    ',' ∉ renderEntry e :=
  not_mem_renderEntry ',' e hwf.1 hwf.2.2.1 (by decide) (by decide) (by decide)
    (by decide) (by decide) (by decide) (by decide) (by decide) (by decide)

theorem pagEntry_render (d : PagDict) (e : LinkEntry) (p : PyStr)
    (hp : ∀ c ∈ p, c.isWhitespace ∧ c ≠ ';') (hwf : wfEntry e) :
    pagEntry d (p ++ renderEntry e) = pagStep d e := by
  obtain ⟨hcu, hsu, hcr, hsr, her⟩ := hwf
  have hassoc : p ++ renderEntry e =
      (p ++ ('<' :: (e.url ++ ['>']))) ++ ';' :: relPart e.rel := by
    simp [renderEntry]
  have hsemi1 : ';' ∉ p ++ ('<' :: (e.url ++ ['>'])) := by
    intro hmem
    simp only [List.mem_append, List.mem_cons, List.mem_singleton] at hmem
    rcases hmem with h|h|h|h
    · exact (hp ';' h).2 rfl
    · exact absurd h (by decide)
    · exact hsu h
    · exact absurd h (by decide)
  have hsemi2 : ';' ∉ relPart e.rel :=
    not_mem_relPart ';' e.rel hsr (by decide) (by decide) (by decide) (by decide)
      (by decide) (by decide)
  have hsplit : pySplit ';' (p ++ renderEntry e) =
      [p ++ ('<' :: (e.url ++ ['>'])), relPart e.rel] := by
    rw [hassoc, pySplit_append ';' _ _ hsemi1, pySplit_not_mem ';' _ hsemi2]
  have hrelassoc : relPart e.rel =
      [' ', 'r', 'e', 'l'] ++ '=' :: ('"' :: (e.rel ++ ['"'])) := by
    simp [relPart]
  have heq2 : '=' ∉ '"' :: (e.rel ++ ['"']) := by
    intro hmem
    simp only [List.mem_cons, List.mem_append, List.mem_singleton] at hmem
    rcases hmem with h|h|h
    · exact absurd h (by decide)
    · exact her h
    · exact absurd h (by decide)
  have hsplit2 : pySplit '=' (relPart e.rel) =
      [[' ', 'r', 'e', 'l'], '"' :: (e.rel ++ ['"'])] := by
    rw [hrelassoc, pySplit_append '=' _ _ (by decide), pySplit_not_mem '=' _ heq2]
  have hstrip2 : pyStrip ('"' :: (e.rel ++ ['"'])) = '"' :: (e.rel ++ ['"']) := by
    have := pyStrip_wsPre [] (by simp) '"' '"' e.rel (by decide) (by decide)
    simpa using this
  have hslice2 : slice1m1 ('"' :: (e.rel ++ ['"'])) = e.rel := by
    simp [slice1m1]
  have hstrip1 : pyStrip (p ++ ('<' :: (e.url ++ ['>']))) = '<' :: (e.url ++ ['>']) :=
    pyStrip_wsPre p (fun c hc => (hp c hc).1) '<' '>' e.url (by decide) (by decide)
  have hslice1 : slice1m1 ('<' :: (e.url ++ ['>'])) = e.url := by
    simp [slice1m1]
  simp only [pagEntry, hsplit, pagStep]
  have hlast : lastD [p ++ ('<' :: (e.url ++ ['>'])), relPart e.rel] = relPart e.rel := rfl
  have hhead : headD [p ++ ('<' :: (e.url ++ ['>'])), relPart e.rel] =
      p ++ ('<' :: (e.url ++ ['>'])) := rfl
  rw [hlast, hhead, hsplit2]
  have hlast2 : lastD [[' ', 'r', 'e', 'l'], '"' :: (e.rel ++ ['"'])] =
      '"' :: (e.rel ++ ['"']) := rfl
  rw [hlast2, hstrip2, hslice2, hstrip1, hslice1]
  rfl

theorem pySplit_renderHeader (e : LinkEntry) (es : List LinkEntry)
    (h : ∀ x ∈ e :: es, wfEntry x) :
    pySplit ',' (renderHeader (e :: es)) =
      renderEntry e :: es.map (fun x => ' ' :: renderEntry x) := by
  induction es generalizing e with
  | nil =>
    simp only [renderHeader, List.map_nil]
    exact pySplit_not_mem ',' _ (comma_not_mem_renderEntry e (h e (by simp)))
  | cons e2 es ih =>
    have hcomma : ',' ∉ renderEntry e := comma_not_mem_renderEntry e (h e (by simp))
    have ih2 := ih e2 (fun x hx => h x (List.mem_cons_of_mem e hx))
    show pySplit ',' (renderEntry e ++ ',' :: (' ' :: renderHeader (e2 :: es))) = _
    rw [pySplit_append ',' _ _ hcomma]
    simp only [pySplit]
    rw [ih2]
    simp

theorem paginationStr_render (es : List LinkEntry) (hne : es ≠ [])
    (hwf : ∀ x ∈ es, wfEntry x) :
    paginationStr (renderHeader es) = es.foldl pagStep pagInit := by
  cases es with
  | nil => exact absurd rfl hne
  | cons e es =>
    unfold paginationStr
    rw [pySplit_renderHeader e es hwf]
    simp only [List.foldl_cons]
    have h0 := pagEntry_render pagInit e [] (by simp) (hwf e (by simp))
    rw [List.nil_append] at h0
    rw [h0, List.foldl_map]
    refine List.foldl_ext _ _ _ (fun acc x hx => ?_)
    have hx2 := pagEntry_render acc x [' ']
      (by intro c hc; simp at hc; subst hc; exact ⟨by decide, by decide⟩)
      (hwf x (List.mem_cons_of_mem e hx))
    rw [List.singleton_append] at hx2
    exact hx2

theorem key_page_ne_key_URL (a b : PyStr) : a ++ "page".toList ≠ b ++ "URL".toList := by
  intro h
  have h1 : (a ++ "page".toList).getLast? = some 'e' := by
    rw [show "page".toList = 'p' :: "age".toList from rfl, List.getLast?_append_cons]
    rfl
  have h2 : (b ++ "URL".toList).getLast? = some 'L' := by
    rw [show "URL".toList = 'U' :: "RL".toList from rfl, List.getLast?_append_cons]
    rfl
  rw [h] at h1
  exact absurd (h1.symm.trans h2) (by decide)

theorem lookup_URL_pagStep (d : PagDict) (e : LinkEntry) (r : PyStr) :
    odLookup (r ++ "URL".toList) (pagStep d e) =
      if e.rel = r then some (.str e.url) else odLookup (r ++ "URL".toList) d := by
  unfold pagStep
  rw [odLookup_odInsert, odLookup_odInsert]
  by_cases h : e.rel = r
  · subst h
    rw [if_pos rfl, if_pos rfl]
  · have h1 : e.rel ++ "URL".toList ≠ r ++ "URL".toList :=
      fun hh => h (List.append_cancel_right hh)
    have h2 : e.rel ++ "page".toList ≠ r ++ "URL".toList := key_page_ne_key_URL _ _
    rw [if_neg h1, if_neg h2, if_neg h]

theorem lookup_page_pagStep (d : PagDict) (e : LinkEntry) (r : PyStr) :
    odLookup (r ++ "page".toList) (pagStep d e) =
      if e.rel = r then some (.str (pagenoOf e.url)) else
        odLookup (r ++ "page".toList) d := by
  unfold pagStep
  rw [odLookup_odInsert, odLookup_odInsert]
  have h2 : e.rel ++ "URL".toList ≠ r ++ "page".toList :=
    fun hh => key_page_ne_key_URL r e.rel hh.symm
  rw [if_neg h2]
  by_cases h : e.rel = r
  · subst h
    rw [if_pos rfl, if_pos rfl]
  · have h1 : e.rel ++ "page".toList ≠ r ++ "page".toList :=
      fun hh => h (List.append_cancel_right hh)
    rw [if_neg h1, if_neg h]

theorem lookup_URL_foldl (es : List LinkEntry) (d : PagDict) (r : PyStr) :
    odLookup (r ++ "URL".toList) (es.foldl pagStep d) =
      match (es.filter (fun e => decide (e.rel = r))).getLast? with
      | some e => some (.str e.url)
      | none => odLookup (r ++ "URL".toList) d := by
  induction es generalizing d with
  | nil => rfl
  | cons e es ih =>
    simp only [List.foldl_cons, List.filter_cons]
    rw [ih (pagStep d e)]
    by_cases h : e.rel = r
    · rw [if_pos (by simp [h])]
      cases hf : es.filter (fun e => decide (e.rel = r)) with
      | nil =>
        simp only [List.getLast?_nil, List.getLast?_singleton]
        rw [lookup_URL_pagStep, if_pos h]
      | cons x xs =>
        cases hg : (x :: xs).getLast? with
        | none => exact absurd (List.getLast?_eq_none_iff.mp hg) (by simp)
        | some y => rw [List.getLast?_cons_cons, hg]
    · rw [if_neg (by simp [h])]
      cases hf : es.filter (fun e => decide (e.rel = r)) with
      | nil =>
        simp only [List.getLast?_nil]
        rw [lookup_URL_pagStep, if_neg h]
      | cons x xs => rfl

theorem lookup_page_foldl (es : List LinkEntry) (d : PagDict) (r : PyStr) :
    odLookup (r ++ "page".toList) (es.foldl pagStep d) =
      match (es.filter (fun e => decide (e.rel = r))).getLast? with
      | some e => some (.str (pagenoOf e.url))
      | none => odLookup (r ++ "page".toList) d := by
  induction es generalizing d with
  | nil => rfl
  | cons e es ih =>
    simp only [List.foldl_cons, List.filter_cons]
    rw [ih (pagStep d e)]
    by_cases h : e.rel = r
    · rw [if_pos (by simp [h])]
      cases hf : es.filter (fun e => decide (e.rel = r)) with
      | nil =>
        simp only [List.getLast?_nil, List.getLast?_singleton]
        rw [lookup_page_pagStep, if_pos h]
      | cons x xs =>
        cases hg : (x :: xs).getLast? with
        | none => exact absurd (List.getLast?_eq_none_iff.mp hg) (by simp)
        | some y => rw [List.getLast?_cons_cons, hg]
    · rw [if_neg (by simp [h])]
      cases hf : es.filter (fun e => decide (e.rel = r)) with
      | nil =>
        simp only [List.getLast?_nil]
        rw [lookup_page_pagStep, if_neg h]
      | cons x xs => rfl

/-! ### Keys and unknown-field marker of the explicit projection loop -/

/-- The output key (if any) that one explicit selector contributes:
a dotted selector always yields its underscored form; a simple selector
yields itself when the object has it, and nothing when it does not. -/
def selKey (repo_json : Rec) (fldname : PyStr) : Option PyStr :=
  if '.' ∈ fldname then some (dotToUnderscore fldname)
  else if (odLookup fldname repo_json).isSome then some fldname else none

/-- Ordered-dict key accumulation: an already-present key adds nothing,
a new key is appended. -/
def keyStep (ks : List PyStr) (k? : Option PyStr) : List PyStr :=
  match k? with
  | none => ks
  | some k => if k ∈ ks then ks else ks ++ [k]

/-- The key list produced by running the explicit loop over `fields`,
starting from keys `ks`. -/
def keysAfter (repo_json : Rec) (ks : List PyStr) (fields : List PyStr) : List PyStr :=
  fields.foldl (fun ks f => keyStep ks (selKey repo_json f)) ks

/-- The unknown-field marker (if any) that one explicit selector sets. -/
def selUnknown (repo_json : Rec) (f : PyStr) : Option PyStr :=
  if '.' ∈ f then none
  else if (odLookup f repo_json).isSome then none else some f

theorem mem_keys_odInsert (d : List (PyStr × α)) (k : PyStr) (v : α) :
    k ∈ (odInsert d k v).map Prod.fst := by
  rw [keys_odInsert]
  by_cases h : k ∈ d.map Prod.fst
  · rwa [if_pos h]
  · rw [if_neg h]
    exact List.mem_append_right _ (List.mem_singleton_self k)

theorem keys_explicitStep (rj : Rec) (acc : Rec × Option PyStr) (f : PyStr) :
    ((explicitStep rj acc f).1).map Prod.fst =
      keyStep (acc.1.map Prod.fst) (selKey rj f) := by
  unfold explicitStep selKey keyStep
  by_cases hdot : '.' ∈ f
  · rw [if_pos hdot, if_pos hdot]
    cases hl : odLookup (headD (pySplit '.' f)) rj with
    | none => rw [keys_odInsert]
    | some pv =>
      dsimp only
      cases hg : getItem pv ((pySplit '.' f).getD 1 []) with
      | ok v => rw [keys_odInsert]
      | error e => rw [keys_odInsert]
  · rw [if_neg hdot, if_neg hdot]
    cases h : odLookup f rj with
    | none => rfl
    | some v =>
      dsimp only
      simp only [Option.isSome_some]
      rw [if_pos trivial]
      by_cases hp : pyLower f = "private".toList
      · rw [if_pos hp]
        dsimp only
        rw [keys_odInsert (odInsert acc.1 f v), if_pos (mem_keys_odInsert _ _ _),
          keys_odInsert]
      · rw [if_neg hp]
        dsimp only
        rw [keys_odInsert]

theorem keys_explicitFold (rj : Rec) (fields : List PyStr) :
    ∀ acc : Rec × Option PyStr,
      ((fields.foldl (explicitStep rj) acc).1).map Prod.fst =
        keysAfter rj (acc.1.map Prod.fst) fields := by
  induction fields with
  | nil => intro acc; rfl
  | cons f fs ih =>
    intro acc
    simp only [List.foldl_cons, keysAfter] at ih ⊢
    rw [ih (explicitStep rj acc f), keys_explicitStep]

theorem marker_explicitStep (rj : Rec) (acc : Rec × Option PyStr) (f : PyStr) :
    (explicitStep rj acc f).2 =
      match selUnknown rj f with
      | some u => some u
      | none => acc.2 := by
  unfold explicitStep selUnknown
  by_cases hdot : '.' ∈ f
  · rw [if_pos hdot, if_pos hdot]
    cases hl : odLookup (headD (pySplit '.' f)) rj with
    | none => rfl
    | some pv =>
      dsimp only
      cases hg : getItem pv ((pySplit '.' f).getD 1 []) with
      | ok v => rfl
      | error e => rfl
  · rw [if_neg hdot, if_neg hdot]
    cases h : odLookup f rj with
    | none => rfl
    | some v =>
      dsimp only
      simp only [Option.isSome_some]
      rw [if_pos trivial]
      by_cases hp : pyLower f = "private".toList
      · rw [if_pos hp]
      · rw [if_neg hp]

theorem marker_explicitFold (rj : Rec) (fields : List PyStr) :
    ∀ acc : Rec × Option PyStr,
      (fields.foldl (explicitStep rj) acc).2 =
        match (fields.filterMap (selUnknown rj)).getLast? with
        | some u => some u
        | none => acc.2 := by
  induction fields with
  | nil => intro acc; rfl
  | cons f fs ih =>
    intro acc
    simp only [List.foldl_cons, List.filterMap_cons]
    cases hu : selUnknown rj f with
    | none =>
      rw [ih (explicitStep rj acc f), marker_explicitStep, hu]
    | some u =>
      rw [ih (explicitStep rj acc f), marker_explicitStep, hu]
      cases hfm : fs.filterMap (selUnknown rj) with
      | nil => rfl
      | cons x xs =>
        cases hg : (x :: xs).getLast? with
        | none => exact absurd (List.getLast?_eq_none_iff.mp hg) (by simp)
        | some y => rw [List.getLast?_cons_cons, hg]

/-! ### Stability of one record key across the explicit loop -/

theorem mem_pyLower (s : PyStr) (c : Char) (h : c ∈ s) : c.toLower ∈ pyLower s :=
  List.mem_map.mpr ⟨c, h, rfl⟩

theorem private_no_dot (fld : PyStr) (hp : pyLower fld = "private".toList) :
    '.' ∉ fld := by
  intro hmem
  have h2 := mem_pyLower fld '.' hmem
  rw [hp] at h2
  exact absurd h2 (by decide)

theorem private_no_underscore (fld : PyStr) (hp : pyLower fld = "private".toList) :
    '_' ∉ fld := by
  intro hmem
  have h2 := mem_pyLower fld '_' hmem
  rw [hp] at h2
  exact absurd h2 (by decide)

theorem underscore_mem_dotToUnderscore (g : PyStr) (h : '.' ∈ g) :
    '_' ∈ dotToUnderscore g := by
  unfold dotToUnderscore
  exact List.mem_map.mpr ⟨'.', h, by decide⟩

theorem dot_key_ne (g fld : PyStr) (hg : '.' ∈ g) (hu : '_' ∉ fld) :
    dotToUnderscore g ≠ fld :=
  fun h => hu (h ▸ underscore_mem_dotToUnderscore g hg)

theorem lookup_explicitStep_other (rj : Rec) (acc : Rec × Option PyStr) (g fld : PyStr)
    (hne : g ≠ fld) (hu : '_' ∉ fld) :
    odLookup fld ((explicitStep rj acc g).1) = odLookup fld acc.1 := by
  unfold explicitStep
  by_cases hdot : '.' ∈ g
  · rw [if_pos hdot]
    have hk : dotToUnderscore g ≠ fld := dot_key_ne g fld hdot hu
    cases hl : odLookup (headD (pySplit '.' g)) rj with
    | none =>
      dsimp only
      rw [odLookup_odInsert, if_neg hk]
    | some pv =>
      dsimp only
      cases hg2 : getItem pv ((pySplit '.' g).getD 1 []) with
      | ok v =>
        dsimp only
        rw [odLookup_odInsert, if_neg hk]
      | error e =>
        dsimp only
        rw [odLookup_odInsert, if_neg hk]
  · rw [if_neg hdot]
    cases hl : odLookup g rj with
    | none => rfl
    | some v =>
      dsimp only
      by_cases hpg : pyLower g = "private".toList
      · rw [if_pos hpg]
        dsimp only
        rw [odLookup_odInsert, if_neg hne, odLookup_odInsert, if_neg hne]
      · rw [if_neg hpg]
        dsimp only
        rw [odLookup_odInsert, if_neg hne]

theorem lookup_explicitStep_self (rj : Rec) (acc : Rec × Option PyStr) (fld : PyStr)
    (b : Bool) (hp : pyLower fld = "private".toList)
    (hv : odLookup fld rj = some (.bool b)) :
    odLookup fld ((explicitStep rj acc fld).1) =
      some (.str (if b then "private".toList else "public".toList)) := by
  unfold explicitStep
  rw [if_neg (private_no_dot fld hp), hv]
  dsimp only
  rw [if_pos hp]
  dsimp only
  rw [odLookup_odInsert, if_pos rfl]
  rfl

theorem lookup_private_fold (rj : Rec) (fld : PyStr) (b : Bool)
    (hp : pyLower fld = "private".toList)
    (hv : odLookup fld rj = some (.bool b)) (fields : List PyStr) :
    ∀ acc : Rec × Option PyStr,
      (fld ∈ fields ∨ odLookup fld acc.1 =
        some (.str (if b then "private".toList else "public".toList))) →
      odLookup fld ((fields.foldl (explicitStep rj) acc).1) =
        some (.str (if b then "private".toList else "public".toList)) := by
  induction fields with
  | nil =>
    intro acc h
    rcases h with h | h
    · exact absurd h (List.not_mem_nil fld)
    · exact h
  | cons g gs ih =>
    intro acc h
    simp only [List.foldl_cons]
    by_cases hmem : fld ∈ gs
    · exact ih _ (Or.inl hmem)
    · refine ih _ (Or.inr ?_)
      by_cases hg : g = fld
      · subst hg
        exact lookup_explicitStep_self rj acc g b hp hv
      · rw [lookup_explicitStep_other rj acc g fld hg (private_no_underscore fld hp)]
        rcases h with h | h
        · rcases List.mem_cons.mp h with h1 | h1
          · exact absurd h1.symm hg
          · exact absurd h1 hmem
        · exact h

/-! ### Unfolding `repofields` on a nonempty field list -/

theorem repofields_cons (rj : Rec) (f0 : PyStr) (rest : List PyStr) (u : Option PyStr) :
    repofields rj (f0 :: rest) u =
      if f0 = "*".toList ∨ f0 = "urls".toList ∨ f0 = "nourls".toList then
        (sentinelValues rj f0, u)
      else (f0 :: rest).foldl (explicitStep rj) ([], u) := by
  unfold repofields
  rw [if_neg (List.cons_ne_nil f0 rest)]
  dsimp only
  rw [List.headD_cons]

/-! ### The `nourls` sentinel as a filter-and-strip map -/

theorem nourlsFilter_nondict (v : Jval) (h : jIsDict v = false) : nourlsFilter v = v := by
  cases v with
  | null => rfl
  | bool b => rfl
  | num n => rfl
  | str s => rfl
  | arr xs => rfl
  | obj fs => exact absurd h (by simp [jIsDict])

theorem sentinel_nourls_step (values : Rec) (kv : PyStr × Jval) :
    (if "nourls".toList = "*".toList ∨ ("nourls".toList = "urls".toList ∧ endsUrl kv.1) ∨
        ("nourls".toList = "nourls".toList ∧ ¬ endsUrl kv.1) then
      if jIsDict kv.2 ∧ "nourls".toList = "nourls".toList then
        odInsert values kv.1 (nourlsFilter kv.2)
      else odInsert values kv.1 kv.2
    else values) =
      if endsUrl kv.1 then values else odInsert values kv.1 (nourlsFilter kv.2) := by
  have c1 : "nourls".toList ≠ "*".toList := by decide
  have c2 : "nourls".toList ≠ "urls".toList := by decide
  by_cases h : endsUrl kv.1
  · have hbig : ¬("nourls".toList = "*".toList ∨
        ("nourls".toList = "urls".toList ∧ endsUrl kv.1) ∨
        ("nourls".toList = "nourls".toList ∧ ¬ endsUrl kv.1)) := by
      rintro (hh | ⟨hh, _⟩ | ⟨_, hh⟩)
      · exact c1 hh
      · exact c2 hh
      · exact hh h
    rw [if_neg hbig, if_pos h]
  · rw [if_pos (Or.inr (Or.inr ⟨rfl, h⟩)), if_neg h]
    by_cases hd : jIsDict kv.2 = true
    · rw [if_pos ⟨hd, rfl⟩]
    · rw [if_neg (fun hh => hd hh.1)]
      rw [nourlsFilter_nondict kv.2 (Bool.eq_false_iff.mpr hd)]

theorem nourls_fold_aux (rj : Rec) : ∀ acc : Rec,
    (∀ kv ∈ rj, kv.1 ∉ acc.map Prod.fst) → (rj.map Prod.fst).Nodup →
    rj.foldl (fun values kv =>
        if endsUrl kv.1 then values else odInsert values kv.1 (nourlsFilter kv.2)) acc =
      acc ++ (rj.filter (fun kv => !endsUrl kv.1)).map
        (fun kv => (kv.1, nourlsFilter kv.2)) := by
  induction rj with
  | nil =>
    intro acc _ _
    simp
  | cons kv rest ih =>
    intro acc hdisj hnd
    simp only [List.map_cons, List.nodup_cons] at hnd
    simp only [List.foldl_cons, List.filter_cons]
    by_cases h : endsUrl kv.1
    · rw [if_pos h]
      have hb : (!endsUrl kv.1) = false := by rw [h]; rfl
      rw [hb]
      simp only [Bool.false_eq_true, if_false]
      exact ih acc (fun x hx => hdisj x (List.mem_cons_of_mem kv hx)) hnd.2
    · rw [if_neg h]
      have hf : endsUrl kv.1 = false := Bool.eq_false_iff.mpr h
      have hb : (!endsUrl kv.1) = true := by rw [hf]; rfl
      rw [hb, if_pos rfl]
      have hknotin : kv.1 ∉ acc.map Prod.fst := hdisj kv (List.mem_cons_self kv rest)
      rw [odInsert_not_mem acc kv.1 (nourlsFilter kv.2) hknotin]
      have hdisj2 : ∀ x ∈ rest, x.1 ∉ (acc ++ [(kv.1, nourlsFilter kv.2)]).map Prod.fst := by
        intro x hx
        rw [List.map_append]
        intro hmem
        rcases List.mem_append.mp hmem with hm | hm
        · exact hdisj x (List.mem_cons_of_mem kv hx) hm
        · rcases List.mem_singleton.mp hm with hm2
          exact hnd.1 (hm2 ▸ List.mem_map.mpr ⟨x, hx, rfl⟩)
      rw [ih (acc ++ [(kv.1, nourlsFilter kv.2)]) hdisj2 hnd.2]
      rw [List.append_assoc, List.singleton_append, List.map_cons]

theorem sentinelValues_nourls (rj : Rec) (hnd : (rj.map Prod.fst).Nodup) :
    sentinelValues rj "nourls".toList =
      (rj.filter (fun kv => !endsUrl kv.1)).map (fun kv => (kv.1, nourlsFilter kv.2)) := by
  unfold sentinelValues
  rw [List.foldl_ext _ _ [] (fun values kv _ => sentinel_nourls_step values kv)]
  have := nourls_fold_aux rj [] (by intro kv _ hmem; simp at hmem) hnd
  rw [this, List.nil_append]

/-! ### Characterization of a successful `gitinfo.memberfields` run -/

theorem isSome_odLookup_odInsert (d : List (PyStr × α)) (k k' : PyStr) (v : α)
    (h : (odLookup k d).isSome = true) :
    (odLookup k (odInsert d k' v)).isSome = true := by
  rw [odLookup_odInsert]
  by_cases hk : k' = k
  · rw [if_pos hk]
    rfl
  · rwa [if_neg hk]

theorem gi_foldlM_ok_isSome (member : Rec) (fields : List PyStr) :
    ∀ acc values : Rec,
      fields.foldlM (gitinfo.memberStep member) acc = Except.ok values →
      (∀ k, (odLookup k acc).isSome = true → (odLookup k values).isSome = true) ∧
      (∀ f ∈ fields, (odLookup f values).isSome = true) := by
  induction fields with
  | nil =>
    intro acc values h
    simp only [List.foldlM_nil] at h
    have hav : acc = values := by
      cases h
      rfl
    subst hav
    exact ⟨fun k hk => hk, fun f hf => absurd hf (List.not_mem_nil f)⟩
  | cons f fs ih =>
    intro acc values h
    simp only [List.foldlM_cons] at h
    cases hl : odLookup f member with
    | none =>
      rw [gitinfo.memberStep, hl] at h
      cases h
    | some v =>
      rw [gitinfo.memberStep, hl] at h
      have h2 : fs.foldlM (gitinfo.memberStep member) (odInsert acc f v) =
          Except.ok values := h
      obtain ⟨ihm, ihf⟩ := ih (odInsert acc f v) values h2
      refine ⟨fun k hk => ihm k (isSome_odLookup_odInsert acc k f v hk), ?_⟩
      intro g hg
      rcases List.mem_cons.mp hg with h1 | h1
      · subst h1
        apply ihm
        rw [odLookup_odInsert, if_pos rfl]
        rfl
      · exact ihf g h1

theorem gi_foldlM_ok_untouched (member : Rec) (fields : List PyStr) (k : PyStr) :
    ∀ acc values : Rec,
      fields.foldlM (gitinfo.memberStep member) acc = Except.ok values →
      (∀ f ∈ fields, f ≠ k) →
      odLookup k values = odLookup k acc := by
  induction fields with
  | nil =>
    intro acc values h _
    simp only [List.foldlM_nil] at h
    cases h
    rfl
  | cons f fs ih =>
    intro acc values h hne
    simp only [List.foldlM_cons] at h
    cases hl : odLookup f member with
    | none =>
      rw [gitinfo.memberStep, hl] at h
      cases h
    | some v =>
      rw [gitinfo.memberStep, hl] at h
      have h2 : fs.foldlM (gitinfo.memberStep member) (odInsert acc f v) =
          Except.ok values := h
      rw [ih (odInsert acc f v) values h2 (fun g hg => hne g (List.mem_cons_of_mem f hg)),
        odLookup_odInsert, if_neg (hne f (List.mem_cons_self f fs))]

theorem keys_filterMap_lookup (values : Rec) :
    ∀ l : List PyStr, (∀ k ∈ l, (odLookup k values).isSome = true) →
      (l.filterMap (fun k => (odLookup k values).map ((k, ·)))).map Prod.fst = l := by
  intro l
  induction l with
  | nil => intro _; rfl
  | cons k ks ih =>
    intro h
    obtain ⟨v, hv⟩ := Option.isSome_iff_exists.mp (h k (List.mem_cons_self k ks))
    simp only [List.filterMap_cons, hv, Option.map_some']
    rw [List.map_cons, ih (fun g hg => h g (List.mem_cons_of_mem k hg))]

theorem gitinfo_memberfields_ok (member : Rec) (fields : List PyStr) (org : Jval)
    (rec : Rec) (h : gitinfo.memberfields member fields org = Except.ok rec) :
    rec.map Prod.fst = "org".toList :: fields ∧
      odLookup "org".toList rec = some org := by
  unfold gitinfo.memberfields at h
  cases hfold : fields.foldlM (gitinfo.memberStep member)
      (odInsert [] "org".toList org) with
  | error e =>
    rw [hfold] at h
    cases h
  | ok values =>
    rw [hfold] at h
    by_cases hnd : ("org".toList :: fields).Nodup
    · have h2 : (Except.ok (("org".toList :: fields).filterMap
          (fun k => (odLookup k values).map ((k, ·)))) : Except PyExc Rec) = Except.ok rec := by
        rw [← h]
        show Except.ok _ = if ("org".toList :: fields).Nodup then _ else _
        rw [if_pos hnd]
        rfl
      have hrec : rec = ("org".toList :: fields).filterMap
          (fun k => (odLookup k values).map ((k, ·))) := by
        cases h2
        rfl
      obtain ⟨hmono, hflds⟩ := gi_foldlM_ok_isSome member fields _ values hfold
      have horgv : odLookup "org".toList values = some org := by
        have hnotin : "org".toList ∉ fields := (List.nodup_cons.mp hnd).1
        rw [gi_foldlM_ok_untouched member fields "org".toList _ values hfold
          (fun f hf => fun he => hnotin (he ▸ hf)), odLookup_odInsert, if_pos rfl]
      have hall : ∀ k ∈ "org".toList :: fields, (odLookup k values).isSome = true := by
        intro k hk
        rcases List.mem_cons.mp hk with h1 | h1
        · subst h1
          rw [horgv]
          rfl
        · exact hflds k h1
      constructor
      · rw [hrec]
        exact keys_filterMap_lookup values _ hall
      · rw [hrec]
        simp only [List.filterMap_cons, horgv, Option.map_some']
        rw [odLookup, if_pos rfl]
    · have h2 : (Except.error PyExc.valueError : Except PyExc Rec) = Except.ok rec := by
        rw [← h]
        show Except.error _ = if ("org".toList :: fields).Nodup then _ else _
        rw [if_neg hnd]
      cases h2

/-! ### One dotted selector `a.b` through both repofields implementations -/

theorem pySplit_dotted (a b : PyStr) (ha : '.' ∉ a) (hb : '.' ∉ b) :
    pySplit '.' (a ++ '.' :: b) = [a, b] := by
  rw [pySplit_append '.' a b ha, pySplit_not_mem '.' b hb]

theorem dotToUnderscore_dotted (a b : PyStr) (ha : '.' ∉ a) (hb : '.' ∉ b) :
    dotToUnderscore (a ++ '.' :: b) = a ++ '_' :: b := by
  have h1 := dotToUnderscore_no_dot a ha
  have h2 := dotToUnderscore_no_dot b hb
  unfold dotToUnderscore at h1 h2 ⊢
  rw [List.map_append, List.map_cons, h1, h2]
  rfl

theorem dot_mem_dotted (a b : PyStr) : '.' ∈ a ++ '.' :: b :=
  List.mem_append_right a (List.mem_cons_self '.' b)

theorem dotted_not_sentinel (a b : PyStr) :
    ¬(a ++ '.' :: b = "*".toList ∨ a ++ '.' :: b = "urls".toList ∨
      a ++ '.' :: b = "nourls".toList) := by
  rintro (h | h | h)
  · have hm := dot_mem_dotted a b
    rw [h] at hm
    exact absurd hm (by decide)
  · have hm := dot_mem_dotted a b
    rw [h] at hm
    exact absurd hm (by decide)
  · have hm := dot_mem_dotted a b
    rw [h] at hm
    exact absurd hm (by decide)

theorem repofields_single_dotted (rj : Rec) (a b : PyStr) (u : Option PyStr)
    (ha : '.' ∉ a) (hb : '.' ∉ b) :
    repofields rj [a ++ '.' :: b] u =
      ((match odLookup a rj with
        | none => [(a ++ '_' :: b, Jval.null)]
        | some pv =>
          match getItem pv b with
          | .ok v => [(a ++ '_' :: b, v)]
          | .error _ => [(a ++ '_' :: b, Jval.null)]), u) := by
  rw [repofields_cons, if_neg (dotted_not_sentinel a b)]
  simp only [List.foldl_cons, List.foldl_nil]
  unfold explicitStep
  rw [if_pos (dot_mem_dotted a b)]
  simp only [pySplit_dotted a b ha hb, headD, List.headD_cons, List.getD_cons_succ,
    List.getD_cons_zero, dotToUnderscore_dotted a b ha hb]
  cases odLookup a rj with
  | none => rfl
  | some pv =>
    dsimp only
    cases getItem pv b with
    | ok v => rfl
    | error e => rfl

theorem gitinfo_repofields_single_dotted (rj : Rec) (a b : PyStr)
    (ha : '.' ∉ a) (hb : '.' ∉ b) :
    gitinfo.repofields rj [a ++ '.' :: b] =
      match odLookup a rj with
      | none => .error .keyError
      | some pv =>
        match pv with
        | .obj fs =>
          (match odLookup b fs with
           | some v => .ok [(a ++ '_' :: b, v)]
           | none => .error .keyError)
        | _ => .ok [(a ++ '_' :: b, Jval.null)] := by
  unfold gitinfo.repofields
  simp only [List.map_cons, List.map_nil]
  rw [if_pos (List.nodup_singleton _)]
  simp only [List.foldlM_cons, List.foldlM_nil]
  rw [if_pos (dot_mem_dotted a b)]
  simp only [pySplit_dotted a b ha hb, headD, List.headD_cons, List.getD_cons_succ,
    List.getD_cons_zero, dotToUnderscore_dotted a b ha hb]
  cases odLookup a rj with
  | none => rfl
  | some pv =>
    dsimp only
    cases pv with
    | null => simp [odLookup_odInsert]
    | bool bb => simp [odLookup_odInsert]
    | num n => simp [odLookup_odInsert]
    | str s => simp [odLookup_odInsert]
    | arr xs => simp [odLookup_odInsert]
    | obj fs =>
      dsimp only
      cases odLookup b fs with
      | none => rfl
      | some v => simp [odLookup_odInsert]

/-! ### Keys depend only on the field list and which simple selectors match -/

theorem keysAfter_congr (rj1 rj2 : Rec) (ks : List PyStr) (fields : List PyStr)
    (h : ∀ f ∈ fields, selKey rj1 f = selKey rj2 f) :
    keysAfter rj1 ks fields = keysAfter rj2 ks fields := by
  unfold keysAfter
  exact List.foldl_ext _ _ ks (fun ks f hf => by rw [h f hf])

theorem selKey_eq_of_present (rj1 rj2 : Rec) (f : PyStr)
    (h1 : '.' ∉ f → (odLookup f rj1).isSome = true ∧ (odLookup f rj2).isSome = true) :
    selKey rj1 f = selKey rj2 f := by
  unfold selKey
  by_cases hdot : '.' ∈ f
  · rw [if_pos hdot, if_pos hdot]
  · rw [if_neg hdot, if_neg hdot, (h1 hdot).1, (h1 hdot).2]

/-! ### Small helpers used by the claim theorems -/

theorem getItem_obj (fs : List (PyStr × Jval)) (k : PyStr) :
    getItem (.obj fs) k =
      match odLookup k fs with
      | some v => .ok v
      | none => .error .keyError := rfl

theorem getItem_nondict (pv : Jval) (k : PyStr) (h : jIsDict pv = false) :
    getItem pv k = .error .typeError := by
  cases pv with
  | null => rfl
  | bool b => rfl
  | num n => rfl
  | str s => rfl
  | arr xs => rfl
  | obj fs => exact absurd h (by simp [jIsDict])

/-- The four named slots of the pagination dictionary, page and URL each. -/
def pagSlots (d : PagDict) :
    Option PagVal × Option PagVal × Option PagVal × Option PagVal ×
      Option PagVal × Option PagVal × Option PagVal × Option PagVal :=
  (odLookup "firstURL".toList d, odLookup "firstpage".toList d,
   odLookup "prevURL".toList d, odLookup "prevpage".toList d,
   odLookup "nextURL".toList d, odLookup "nextpage".toList d,
   odLookup "lastURL".toList d, odLookup "lastpage".toList d)

/-! ### Claim theorems -/

/-- C2, counterexample: `pagination` applied to Python `None` raises
`AttributeError` (`None` is not a string, and `None.headers` is not caught by
the `except KeyError` clause), so the parser does not return an all-empty
LinkSet for every absent input and can raise. -/
theorem c2_counterexample :
    pagination LinkInput.pynone = Except.error PyExc.attributeError := rfl

/-- C2, amended: applied to a response without a Link header or to an empty
header string, `pagination` returns successfully and all four named slots
(first/prev/next/last, page and URL each) hold their empty/null initial
values; applied to Python `None` it raises `AttributeError`. -/
theorem c2_amended :
    pagination (LinkInput.response none) = Except.ok pagInit ∧
    pagination (LinkInput.str []) = Except.ok (paginationStr []) ∧
    pagSlots pagInit =
      (some .pynone, some (.int 0), some .pynone, some (.int 0),
       some .pynone, some (.int 0), some .pynone, some (.int 0)) ∧
    pagSlots (paginationStr []) =
      (some .pynone, some (.int 0), some .pynone, some (.int 0),
       some .pynone, some (.int 0), some .pynone, some (.int 0)) ∧
    pagination LinkInput.pynone = Except.error PyExc.attributeError :=
  ⟨rfl, rfl, rfl, rfl, rfl⟩

/-- C6: for every well-formed Link header containing a `rel="next"` entry,
the parser's `nextURL` slot holds the URL between the angle brackets of that
entry (the last such entry when several occur); and the spec's example header
parses to nextpage `2`, nextURL/lastURL as written, lastpage `5`, with
first/prev slots untouched. -/
theorem c6_next_url :
    (∀ (es : List LinkEntry) (e : LinkEntry),
      (∀ x ∈ es, wfEntry x) →
      (es.filter (fun x => decide (x.rel = "next".toList))).getLast? = some e →
      odLookup "nextURL".toList (paginationStr (renderHeader es)) =
        some (.str e.url)) ∧
    paginationStr ("<https://api.github.com/organizations/123/repos?page=2>; rel=\"next\", <https://api.github.com/organizations/123/repos?page=5>; rel=\"last\"".toList) =
      [("firstpage".toList, .int 0), ("firstURL".toList, .pynone),
       ("prevpage".toList, .int 0), ("prevURL".toList, .pynone),
       ("nextpage".toList, .str "2".toList),
       ("nextURL".toList,
        .str "https://api.github.com/organizations/123/repos?page=2".toList),
       ("lastpage".toList, .str "5".toList),
       ("lastURL".toList,
        .str "https://api.github.com/organizations/123/repos?page=5".toList)] := by
  constructor
  · intro es e hwf hlast
    have hne : es ≠ [] := by
      intro h
      subst h
      simp at hlast
    rw [paginationStr_render es hne hwf]
    have h2 : odLookup "nextURL".toList (es.foldl pagStep pagInit) =
        match (es.filter (fun x => decide (x.rel = "next".toList))).getLast? with
        | some x => some (.str x.url)
        | none => odLookup "nextURL".toList pagInit :=
      lookup_URL_foldl es pagInit "next".toList
    rw [h2, hlast]
  · decide

/-- C6, witness: the universal clause applied to the example header's two
entries, with the `next` entry as the last `rel="next"` match. -/
theorem c6_next_url_witness :
    (∀ x ∈ [LinkEntry.mk
        "https://api.github.com/organizations/123/repos?page=2".toList "next".toList,
      LinkEntry.mk
        "https://api.github.com/organizations/123/repos?page=5".toList "last".toList],
      wfEntry x) ∧
    (([LinkEntry.mk
        "https://api.github.com/organizations/123/repos?page=2".toList "next".toList,
      LinkEntry.mk
        "https://api.github.com/organizations/123/repos?page=5".toList
        "last".toList].filter (fun x => decide (x.rel = "next".toList))).getLast? =
      some (LinkEntry.mk
        "https://api.github.com/organizations/123/repos?page=2".toList
        "next".toList)) ∧
    odLookup "nextURL".toList (paginationStr (renderHeader
      [LinkEntry.mk
        "https://api.github.com/organizations/123/repos?page=2".toList "next".toList,
      LinkEntry.mk
        "https://api.github.com/organizations/123/repos?page=5".toList
        "last".toList])) =
      some (.str "https://api.github.com/organizations/123/repos?page=2".toList) :=
  ⟨by decide, by decide,
    c6_next_url.1
      [LinkEntry.mk
        "https://api.github.com/organizations/123/repos?page=2".toList "next".toList,
      LinkEntry.mk
        "https://api.github.com/organizations/123/repos?page=5".toList "last".toList]
      (LinkEntry.mk
        "https://api.github.com/organizations/123/repos?page=2".toList "next".toList)
      (by decide) (by decide)⟩

/-- C9: an entry whose rel type is not first/prev/next/last is ignored:
the parser raises nothing and the four named slots (page and URL each) are
exactly what they would be without that entry. -/
theorem c9_unknown_rel_ignored (es1 es2 : List LinkEntry) (e : LinkEntry)
    (hwf1 : ∀ x ∈ es1, wfEntry x) (hwf2 : ∀ x ∈ es2, wfEntry x) (hwfe : wfEntry e)
    (hne : es1 ++ es2 ≠ [])
    (hrel : e.rel ∉ ["first".toList, "prev".toList, "next".toList, "last".toList]) :
    pagination (.str (renderHeader (es1 ++ e :: es2))) =
      Except.ok (paginationStr (renderHeader (es1 ++ e :: es2))) ∧
    pagSlots (paginationStr (renderHeader (es1 ++ e :: es2))) =
      pagSlots (paginationStr (renderHeader (es1 ++ es2))) := by
  refine ⟨rfl, ?_⟩
  have hwfA : ∀ x ∈ es1 ++ e :: es2, wfEntry x := by
    intro x hx
    rcases List.mem_append.mp hx with h | h
    · exact hwf1 x h
    · rcases List.mem_cons.mp h with h | h
      · exact h ▸ hwfe
      · exact hwf2 x h
  have hwfB : ∀ x ∈ es1 ++ es2, wfEntry x := by
    intro x hx
    rcases List.mem_append.mp hx with h | h
    · exact hwf1 x h
    · exact hwf2 x h
  have hneA : es1 ++ e :: es2 ≠ [] := by
    cases es1 <;> simp
  rw [paginationStr_render _ hneA hwfA, paginationStr_render _ hne hwfB]
  have hfil : ∀ r : PyStr, e.rel ≠ r →
      (es1 ++ e :: es2).filter (fun x => decide (x.rel = r)) =
        (es1 ++ es2).filter (fun x => decide (x.rel = r)) := by
    intro r hr
    rw [List.filter_append, List.filter_append, List.filter_cons,
      if_neg (by simp [hr])]
  have hURL : ∀ r : PyStr, e.rel ≠ r →
      odLookup (r ++ "URL".toList) ((es1 ++ e :: es2).foldl pagStep pagInit) =
        odLookup (r ++ "URL".toList) ((es1 ++ es2).foldl pagStep pagInit) := by
    intro r hr
    rw [lookup_URL_foldl, lookup_URL_foldl, hfil r hr]
  have hpage : ∀ r : PyStr, e.rel ≠ r →
      odLookup (r ++ "page".toList) ((es1 ++ e :: es2).foldl pagStep pagInit) =
        odLookup (r ++ "page".toList) ((es1 ++ es2).foldl pagStep pagInit) := by
    intro r hr
    rw [lookup_page_foldl, lookup_page_foldl, hfil r hr]
  simp only [List.mem_cons, List.not_mem_nil, or_false, not_or] at hrel
  obtain ⟨h1, h2, h3, h4⟩ := hrel
  unfold pagSlots
  have e1 : odLookup "firstURL".toList ((es1 ++ e :: es2).foldl pagStep pagInit) =
      odLookup "firstURL".toList ((es1 ++ es2).foldl pagStep pagInit) :=
    hURL "first".toList h1
  have e2 : odLookup "firstpage".toList ((es1 ++ e :: es2).foldl pagStep pagInit) =
      odLookup "firstpage".toList ((es1 ++ es2).foldl pagStep pagInit) :=
    hpage "first".toList h1
  have e3 : odLookup "prevURL".toList ((es1 ++ e :: es2).foldl pagStep pagInit) =
      odLookup "prevURL".toList ((es1 ++ es2).foldl pagStep pagInit) :=
    hURL "prev".toList h2
  have e4 : odLookup "prevpage".toList ((es1 ++ e :: es2).foldl pagStep pagInit) =
      odLookup "prevpage".toList ((es1 ++ es2).foldl pagStep pagInit) :=
    hpage "prev".toList h2
  have e5 : odLookup "nextURL".toList ((es1 ++ e :: es2).foldl pagStep pagInit) =
      odLookup "nextURL".toList ((es1 ++ es2).foldl pagStep pagInit) :=
    hURL "next".toList h3
  have e6 : odLookup "nextpage".toList ((es1 ++ e :: es2).foldl pagStep pagInit) =
      odLookup "nextpage".toList ((es1 ++ es2).foldl pagStep pagInit) :=
    hpage "next".toList h3
  have e7 : odLookup "lastURL".toList ((es1 ++ e :: es2).foldl pagStep pagInit) =
      odLookup "lastURL".toList ((es1 ++ es2).foldl pagStep pagInit) :=
    hURL "last".toList h4
  have e8 : odLookup "lastpage".toList ((es1 ++ e :: es2).foldl pagStep pagInit) =
      odLookup "lastpage".toList ((es1 ++ es2).foldl pagStep pagInit) :=
    hpage "last".toList h4
  rw [e1, e2, e3, e4, e5, e6, e7, e8]

/-- C9, witness: a `rel="related"` entry between two recognized entries
leaves all four slots as without it. -/
theorem c9_unknown_rel_ignored_witness :
    (∀ x ∈ [LinkEntry.mk "https://x.example/a?page=1".toList "first".toList],
      wfEntry x) ∧
    (∀ x ∈ [LinkEntry.mk "https://x.example/a?page=9".toList "last".toList],
      wfEntry x) ∧
    wfEntry (LinkEntry.mk "https://x.example/b".toList "related".toList) ∧
    ([LinkEntry.mk "https://x.example/a?page=1".toList "first".toList] ++
      [LinkEntry.mk "https://x.example/a?page=9".toList "last".toList] ≠ []) ∧
    (LinkEntry.mk "https://x.example/b".toList "related".toList).rel ∉
      ["first".toList, "prev".toList, "next".toList, "last".toList] ∧
    pagSlots (paginationStr (renderHeader
      ([LinkEntry.mk "https://x.example/a?page=1".toList "first".toList] ++
        LinkEntry.mk "https://x.example/b".toList "related".toList ::
        [LinkEntry.mk "https://x.example/a?page=9".toList "last".toList]))) =
      pagSlots (paginationStr (renderHeader
        ([LinkEntry.mk "https://x.example/a?page=1".toList "first".toList] ++
          [LinkEntry.mk "https://x.example/a?page=9".toList "last".toList]))) :=
  ⟨by decide, by decide, by decide, by decide, by decide,
    (c9_unknown_rel_ignored
      [LinkEntry.mk "https://x.example/a?page=1".toList "first".toList]
      [LinkEntry.mk "https://x.example/a?page=9".toList "last".toList]
      (LinkEntry.mk "https://x.example/b".toList "related".toList)
      (by decide) (by decide) (by decide) (by decide) (by decide)).2⟩

/-- C1, counterexample: with FieldSpec `['name', 'bogus']` against
`{'name': 'foo'}`, `gitdata.repofields` returns a record with one key,
not one key per selector: the unmatched simple selector `bogus` stores no
output key (the `except KeyError` branch only sets the unknown-field
marker). -/
theorem c1_counterexample :
    repofields [("name".toList, Jval.str "foo".toList)]
        ["name".toList, "bogus".toList] none =
      ([("name".toList, Jval.str "foo".toList)], some "bogus".toList) ∧
    [("name".toList, Jval.str "foo".toList)].length ≠
      ["name".toList, "bogus".toList].length :=
  ⟨rfl, by decide⟩

/-- C1, amended: for an explicit non-sentinel FieldSpec, the record has one
output key per dotted selector and per simple selector present in the object,
in first-occurrence selector order (`keysAfter`); an unknown simple field
name contributes no output key but is recorded in the unknown-field marker
(the last unknown wins, the prior marker survives when none occur), and
projection of the remaining selectors continues. -/
theorem c1_amended (rj : Rec) (f0 : PyStr) (rest : List PyStr) (u : Option PyStr)
    (hs : ¬(f0 = "*".toList ∨ f0 = "urls".toList ∨ f0 = "nourls".toList)) :
    ((repofields rj (f0 :: rest) u).1).map Prod.fst =
      keysAfter rj [] (f0 :: rest) ∧
    (repofields rj (f0 :: rest) u).2 =
      (match ((f0 :: rest).filterMap (selUnknown rj)).getLast? with
       | some w => some w
       | none => u) := by
  rw [repofields_cons, if_neg hs]
  constructor
  · have h := keys_explicitFold rj (f0 :: rest) ([], u)
    simpa using h
  · have h := marker_explicitFold rj (f0 :: rest) ([], u)
    simpa using h

/-- C1, witness: the amended statement at `{'name': 'foo'}` with
FieldSpec `['name', 'bogus']`. -/
theorem c1_amended_witness :
    ¬("name".toList = "*".toList ∨ "name".toList = "urls".toList ∨
      "name".toList = "nourls".toList) ∧
    (((repofields [("name".toList, Jval.str "foo".toList)]
          ["name".toList, "bogus".toList] none).1).map Prod.fst =
        keysAfter [("name".toList, Jval.str "foo".toList)] []
          ["name".toList, "bogus".toList] ∧
      (repofields [("name".toList, Jval.str "foo".toList)]
          ["name".toList, "bogus".toList] none).2 =
        (match ((["name".toList, "bogus".toList]).filterMap
            (selUnknown [("name".toList, Jval.str "foo".toList)])).getLast? with
         | some w => some w
         | none => none)) :=
  ⟨by decide, c1_amended [("name".toList, Jval.str "foo".toList)]
    "name".toList ["bogus".toList] none (by decide)⟩

theorem gitdata_memberfields_default (member : Rec) (org l i t s : Jval)
    (hl : odLookup "login".toList member = some l)
    (hi : odLookup "id".toList member = some i)
    (ht : odLookup "type".toList member = some t)
    (hs : odLookup "site_admin".toList member = some s) :
    memberfields member [] org =
      Except.ok [("org".toList, org), ("login".toList, l), ("id".toList, i),
        ("type".toList, t), ("site_admin".toList, s)] := by
  unfold memberfields
  rw [if_pos rfl]
  simp only [List.foldlM_cons, List.foldlM_nil, hl, hi, ht, hs]
  rfl

/-- C3, counterexample: `gitdata.memberfields` with the explicit FieldSpec
`['login']` returns a record without any `org` key at all — the
caller-supplied `org` is emitted only for a selector literally named `org`,
so the injection is not independent of the FieldSpec. -/
theorem c3_counterexample :
    memberfields [("login".toList, Jval.str "x".toList)] ["login".toList]
        (Jval.str "orgname".toList) =
      Except.ok [("login".toList, Jval.str "x".toList)] ∧
    odLookup "org".toList [("login".toList, Jval.str "x".toList)] =
      (none : Option Jval) :=
  ⟨rfl, rfl⟩

/-- C3, amended: `gitinfo.memberfields` does always inject the
caller-supplied `org` as the first output key ahead of the requested fields
(whenever it returns at all); `gitdata.memberfields` stores `org` only where
the FieldSpec lists it, and its default field list
`['org', 'login', 'id', 'type', 'site_admin']` places `org` first. -/
theorem c3_amended :
    (∀ (member : Rec) (fields : List PyStr) (org : Jval) (rec : Rec),
      gitinfo.memberfields member fields org = Except.ok rec →
      rec.map Prod.fst = "org".toList :: fields ∧
        odLookup "org".toList rec = some org) ∧
    (∀ (member : Rec) (org l i t s : Jval),
      odLookup "login".toList member = some l →
      odLookup "id".toList member = some i →
      odLookup "type".toList member = some t →
      odLookup "site_admin".toList member = some s →
      memberfields member [] org =
        Except.ok [("org".toList, org), ("login".toList, l), ("id".toList, i),
          ("type".toList, t), ("site_admin".toList, s)]) :=
  ⟨gitinfo_memberfields_ok, gitdata_memberfields_default⟩

/-- C3, witness: the gitinfo clause at `{'login': 'x'}` with FieldSpec
`['login']`. -/
theorem c3_amended_witness :
    gitinfo.memberfields [("login".toList, Jval.str "x".toList)]
        ["login".toList] (Jval.str "o".toList) =
      Except.ok [("org".toList, Jval.str "o".toList),
        ("login".toList, Jval.str "x".toList)] ∧
    ([("org".toList, Jval.str "o".toList),
      ("login".toList, Jval.str "x".toList)] : Rec).map Prod.fst =
      "org".toList :: ["login".toList] ∧
    odLookup "org".toList
        ([("org".toList, Jval.str "o".toList),
          ("login".toList, Jval.str "x".toList)] : Rec) =
      some (Jval.str "o".toList) :=
  ⟨rfl, c3_amended.1 [("login".toList, Jval.str "x".toList)] ["login".toList]
    (Jval.str "o".toList)
    [("org".toList, Jval.str "o".toList), ("login".toList, Jval.str "x".toList)] rfl⟩

/-- C4, counterexample: with the fixed FieldSpec `['*']` the records produced
from the well-formed objects `{'a': 1}` and `{'b': 2}` have different keys,
so the invariant does not hold for every FieldSpec: under a sentinel mode the
keys come from the source object, not the FieldSpec. -/
theorem c4_counterexample :
    ((repofields [("a".toList, Jval.num 1)] ["*".toList] none).1).map Prod.fst ≠
      ((repofields [("b".toList, Jval.num 2)] ["*".toList] none).1).map Prod.fst := by
  decide

/-- C4, amended: for a fixed explicit (non-sentinel) FieldSpec, any two
records produced from objects that contain every simple selector of the
FieldSpec have the same keys in the same order (so the first record's keys
are a valid CSV header row for the rest). -/
theorem c4_amended (rj1 rj2 : Rec) (f0 : PyStr) (rest : List PyStr)
    (u1 u2 : Option PyStr)
    (hs : ¬(f0 = "*".toList ∨ f0 = "urls".toList ∨ f0 = "nourls".toList))
    (hw : ∀ f ∈ f0 :: rest, '.' ∉ f →
      (odLookup f rj1).isSome = true ∧ (odLookup f rj2).isSome = true) :
    ((repofields rj1 (f0 :: rest) u1).1).map Prod.fst =
      ((repofields rj2 (f0 :: rest) u2).1).map Prod.fst := by
  rw [repofields_cons, repofields_cons, if_neg hs, if_neg hs,
    keys_explicitFold rj1 (f0 :: rest) ([], u1),
    keys_explicitFold rj2 (f0 :: rest) ([], u2)]
  exact keysAfter_congr rj1 rj2 _ _
    (fun f hf => selKey_eq_of_present rj1 rj2 f (fun hd => hw f hf hd))

/-- C4, witness: FieldSpec `['owner.login', 'name']` against two repo objects
with different values but the same present keys. -/
theorem c4_amended_witness :
    ¬("owner.login".toList = "*".toList ∨ "owner.login".toList = "urls".toList ∨
      "owner.login".toList = "nourls".toList) ∧
    (∀ f ∈ ["owner.login".toList, "name".toList], '.' ∉ f →
      (odLookup f [("name".toList, Jval.str "r1".toList)]).isSome = true ∧
      (odLookup f [("name".toList, Jval.str "r2".toList),
        ("owner".toList, Jval.obj [])]).isSome = true) ∧
    ((repofields [("name".toList, Jval.str "r1".toList)]
        ["owner.login".toList, "name".toList] none).1).map Prod.fst =
      ((repofields [("name".toList, Jval.str "r2".toList),
          ("owner".toList, Jval.obj [])]
        ["owner.login".toList, "name".toList] none).1).map Prod.fst :=
  ⟨by decide, by decide,
    c4_amended [("name".toList, Jval.str "r1".toList)]
      [("name".toList, Jval.str "r2".toList), ("owner".toList, Jval.obj [])]
      "owner.login".toList ["name".toList] none none (by decide) (by decide)⟩

/-- C5, counterexample: `gitinfo.repofields` applied to the empty object with
the dotted selector `a.b` raises `KeyError` instead of storing `null` — its
`except` clause catches only `TypeError`, so an absent parent (or absent
child) is not converted to `null` in that implementation. -/
theorem c5_counterexample :
    gitinfo.repofields [] ["a.b".toList] = Except.error PyExc.keyError := rfl

/-- C5, amended: for a dotted selector `a.b`, `gitdata.repofields` stores
`sourceObject[a][b]` under key `a_b` when `a` is present with an object value
containing `b`, and stores `null` under `a_b` when `a` is absent, when `a`'s
value is not an object (including `null`), or when `b` is absent;
`gitinfo.repofields` stores `null` only in the not-an-object (`TypeError`)
case and raises `KeyError` when `a` or `b` is absent. -/
theorem c5_amended (rj : Rec) (a b : PyStr) (u : Option PyStr)
    (ha : '.' ∉ a) (hb : '.' ∉ b) :
    (∀ fs v, odLookup a rj = some (.obj fs) → odLookup b fs = some v →
      repofields rj [a ++ '.' :: b] u = ([(a ++ '_' :: b, v)], u)) ∧
    (odLookup a rj = none →
      repofields rj [a ++ '.' :: b] u = ([(a ++ '_' :: b, Jval.null)], u)) ∧
    (∀ pv, odLookup a rj = some pv → jIsDict pv = false →
      repofields rj [a ++ '.' :: b] u = ([(a ++ '_' :: b, Jval.null)], u)) ∧
    (∀ fs, odLookup a rj = some (.obj fs) → odLookup b fs = none →
      repofields rj [a ++ '.' :: b] u = ([(a ++ '_' :: b, Jval.null)], u)) ∧
    (odLookup a rj = none →
      gitinfo.repofields rj [a ++ '.' :: b] = Except.error PyExc.keyError) ∧
    (∀ pv, odLookup a rj = some pv → jIsDict pv = false →
      gitinfo.repofields rj [a ++ '.' :: b] =
        Except.ok [(a ++ '_' :: b, Jval.null)]) ∧
    (∀ fs, odLookup a rj = some (.obj fs) → odLookup b fs = none →
      gitinfo.repofields rj [a ++ '.' :: b] = Except.error PyExc.keyError) ∧
    (∀ fs v, odLookup a rj = some (.obj fs) → odLookup b fs = some v →
      gitinfo.repofields rj [a ++ '.' :: b] = Except.ok [(a ++ '_' :: b, v)]) := by
  refine ⟨?_, ?_, ?_, ?_, ?_, ?_, ?_, ?_⟩
  · intro fs v h1 h2
    rw [repofields_single_dotted rj a b u ha hb, h1]
    dsimp only
    rw [getItem_obj, h2]
  · intro h1
    rw [repofields_single_dotted rj a b u ha hb, h1]
  · intro pv h1 hpd
    rw [repofields_single_dotted rj a b u ha hb, h1]
    dsimp only
    rw [getItem_nondict pv b hpd]
  · intro fs h1 h2
    rw [repofields_single_dotted rj a b u ha hb, h1]
    dsimp only
    rw [getItem_obj, h2]
  · intro h1
    rw [gitinfo_repofields_single_dotted rj a b ha hb, h1]
  · intro pv h1 hpd
    rw [gitinfo_repofields_single_dotted rj a b ha hb, h1]
    dsimp only
    cases pv with
    | null => rfl
    | bool bb => rfl
    | num n => rfl
    | str s => rfl
    | arr xs => rfl
    | obj fs => exact absurd hpd (by simp [jIsDict])
  · intro fs h1 h2
    rw [gitinfo_repofields_single_dotted rj a b ha hb, h1]
    dsimp only
    rw [h2]
  · intro fs v h1 h2
    rw [gitinfo_repofields_single_dotted rj a b ha hb, h1]
    dsimp only
    rw [h2]

/-- C5, witness: the happy path of the amended statement at
`{'owner': {'login': 'bar'}}` with selector `owner.login`. -/
theorem c5_amended_witness :
    ('.' ∉ "owner".toList) ∧ ('.' ∉ "login".toList) ∧
    odLookup "owner".toList
        [("owner".toList, Jval.obj [("login".toList, Jval.str "bar".toList)])] =
      some (Jval.obj [("login".toList, Jval.str "bar".toList)]) ∧
    odLookup "login".toList [("login".toList, Jval.str "bar".toList)] =
      some (Jval.str "bar".toList) ∧
    repofields [("owner".toList, Jval.obj [("login".toList, Jval.str "bar".toList)])]
        ["owner".toList ++ '.' :: "login".toList] none =
      ([("owner".toList ++ '_' :: "login".toList, Jval.str "bar".toList)], none) :=
  ⟨by decide, by decide, rfl, rfl,
    (c5_amended [("owner".toList, Jval.obj [("login".toList, Jval.str "bar".toList)])]
      "owner".toList "login".toList none (by decide) (by decide)).1
      [("login".toList, Jval.str "bar".toList)] (Jval.str "bar".toList) rfl rfl⟩

/-- C7: for an explicit repo FieldSpec containing a selector whose lowercase
form is `private`, when the source object has that key with a boolean value,
the record stores the literal string `private` for `true` and `public` for
`false`; and the spec's end-to-end example projects as written. -/
theorem c7_private_to_string :
    (∀ (rj : Rec) (f0 : PyStr) (rest : List PyStr) (u : Option PyStr)
       (fld : PyStr) (b : Bool),
      ¬(f0 = "*".toList ∨ f0 = "urls".toList ∨ f0 = "nourls".toList) →
      fld ∈ f0 :: rest →
      pyLower fld = "private".toList →
      odLookup fld rj = some (.bool b) →
      odLookup fld ((repofields rj (f0 :: rest) u).1) =
        some (.str (if b then "private".toList else "public".toList))) ∧
    repofields [("name".toList, Jval.str "foo".toList),
        ("owner".toList, Jval.obj [("login".toList, Jval.str "bar".toList)]),
        ("private".toList, Jval.bool true)]
      ["owner.login".toList, "name".toList, "private".toList] none =
      ([("owner_login".toList, Jval.str "bar".toList),
        ("name".toList, Jval.str "foo".toList),
        ("private".toList, Jval.str "private".toList)], none) := by
  constructor
  · intro rj f0 rest u fld b hs hmem hp hv
    rw [repofields_cons, if_neg hs]
    exact lookup_private_fold rj fld b hp hv (f0 :: rest) ([], u) (Or.inl hmem)
  · rfl

/-- C7, witness: the universal clause at the example object, selector
`private`, boolean `true`. -/
theorem c7_private_to_string_witness :
    ¬("owner.login".toList = "*".toList ∨ "owner.login".toList = "urls".toList ∨
      "owner.login".toList = "nourls".toList) ∧
    "private".toList ∈
      ["owner.login".toList, "name".toList, "private".toList] ∧
    pyLower "private".toList = "private".toList ∧
    odLookup "private".toList
        [("name".toList, Jval.str "foo".toList),
         ("owner".toList, Jval.obj [("login".toList, Jval.str "bar".toList)]),
         ("private".toList, Jval.bool true)] = some (Jval.bool true) ∧
    odLookup "private".toList
        ((repofields [("name".toList, Jval.str "foo".toList),
            ("owner".toList, Jval.obj [("login".toList, Jval.str "bar".toList)]),
            ("private".toList, Jval.bool true)]
          ["owner.login".toList, "name".toList, "private".toList] none).1) =
      some (Jval.str (if true then "private".toList else "public".toList)) :=
  ⟨by decide, by decide, by decide, rfl,
    c7_private_to_string.1
      [("name".toList, Jval.str "foo".toList),
       ("owner".toList, Jval.obj [("login".toList, Jval.str "bar".toList)]),
       ("private".toList, Jval.bool true)]
      "owner.login".toList ["name".toList, "private".toList] none
      "private".toList true (by decide) (by decide) (by decide) rfl⟩

/-- C8: the `nourls` sentinel keeps exactly the top-level keys not ending in
`url` (in source order), replacing a kept nested-object value by that object
with its own `*url`-suffixed keys removed, one level deep only; and the
spec's end-to-end example filters as written. -/
theorem c8_nourls_filter :
    (∀ (rj : Rec) (rest : List PyStr) (u : Option PyStr),
      (rj.map Prod.fst).Nodup →
      repofields rj ("nourls".toList :: rest) u =
        ((rj.filter (fun kv => !endsUrl kv.1)).map
          (fun kv => (kv.1, nourlsFilter kv.2)), u)) ∧
    repofields [("name".toList, Jval.str "foo".toList),
        ("html_url".toList, Jval.str "x".toList),
        ("license".toList, Jval.obj [("name".toList, Jval.str "MIT".toList),
          ("url".toList, Jval.str "y".toList)])]
      ["nourls".toList] none =
      ([("name".toList, Jval.str "foo".toList),
        ("license".toList, Jval.obj [("name".toList, Jval.str "MIT".toList)])],
       none) := by
  constructor
  · intro rj rest u hnd
    rw [repofields_cons, if_pos (Or.inr (Or.inr rfl)),
      sentinelValues_nourls rj hnd]
  · rfl

/-- C8, witness: the universal clause at the example object. -/
theorem c8_nourls_filter_witness :
    (([("name".toList, Jval.str "foo".toList),
       ("html_url".toList, Jval.str "x".toList),
       ("license".toList, Jval.obj [("name".toList, Jval.str "MIT".toList),
         ("url".toList, Jval.str "y".toList)])] : Rec).map Prod.fst).Nodup ∧
    repofields [("name".toList, Jval.str "foo".toList),
        ("html_url".toList, Jval.str "x".toList),
        ("license".toList, Jval.obj [("name".toList, Jval.str "MIT".toList),
          ("url".toList, Jval.str "y".toList)])]
      ["nourls".toList] none =
      ((([("name".toList, Jval.str "foo".toList),
          ("html_url".toList, Jval.str "x".toList),
          ("license".toList, Jval.obj [("name".toList, Jval.str "MIT".toList),
            ("url".toList, Jval.str "y".toList)])] : Rec).filter
          (fun kv => !endsUrl kv.1)).map (fun kv => (kv.1, nourlsFilter kv.2)),
       (none : Option PyStr)) :=
  ⟨by decide,
    c8_nourls_filter.1
      [("name".toList, Jval.str "foo".toList),
       ("html_url".toList, Jval.str "x".toList),
       ("license".toList, Jval.obj [("name".toList, Jval.str "MIT".toList),
         ("url".toList, Jval.str "y".toList)])]
      [] none (by decide)⟩

/-- C10: sentinel dispatch looks only at the first selector: with a sentinel
first selector the remaining selectors are ignored entirely (the result
equals projecting with the sentinel alone); with a non-sentinel first
selector the whole list is processed by the ordinary per-selector loop, so a
sentinel token in a later position is looked up as an ordinary field name —
concretely, `['name', 'urls']` against `{'name': 'foo'}` yields only the
`name` key and records `urls` as an unknown field name. -/
theorem c10_sentinel_dispatch :
    (∀ (rj : Rec) (f0 : PyStr) (rest : List PyStr) (u : Option PyStr),
      (f0 = "*".toList ∨ f0 = "urls".toList ∨ f0 = "nourls".toList) →
      repofields rj (f0 :: rest) u = repofields rj [f0] u) ∧
    (∀ (rj : Rec) (f0 : PyStr) (rest : List PyStr) (u : Option PyStr),
      ¬(f0 = "*".toList ∨ f0 = "urls".toList ∨ f0 = "nourls".toList) →
      repofields rj (f0 :: rest) u =
        (f0 :: rest).foldl (explicitStep rj) ([], u)) ∧
    repofields [("name".toList, Jval.str "foo".toList)]
        ["name".toList, "urls".toList] none =
      ([("name".toList, Jval.str "foo".toList)], some "urls".toList) := by
  refine ⟨?_, ?_, rfl⟩
  · intro rj f0 rest u h
    rw [repofields_cons, repofields_cons, if_pos h, if_pos h]
  · intro rj f0 rest u h
    rw [repofields_cons, if_neg h]

/-- C10, witness: the sentinel clause at `['urls', 'name']`: the trailing
`name` selector is ignored. -/
theorem c10_sentinel_dispatch_witness :
    ("urls".toList = "*".toList ∨ "urls".toList = "urls".toList ∨
      "urls".toList = "nourls".toList) ∧
    repofields [("name".toList, Jval.str "foo".toList),
        ("html_url".toList, Jval.str "x".toList)]
      ["urls".toList, "name".toList] none =
      repofields [("name".toList, Jval.str "foo".toList),
        ("html_url".toList, Jval.str "x".toList)] ["urls".toList] none :=
  ⟨by decide,
    c10_sentinel_dispatch.1
      [("name".toList, Jval.str "foo".toList),
       ("html_url".toList, Jval.str "x".toList)]
      "urls".toList ["name".toList] none (by decide)⟩
